import Mathlib

/-!
# Shallow embedding of the GrainDelay plugin

This file models the two source files of the GrainDelay repository:

* `src/unnamed/part_000` — the `Utils` header: `lerp`, `hanningWindow`,
  `peekCubicInterp`, the one-pole filters, `RampToTrig` and `EventSystem`;
* `src/plugins/GrainDelay/GrainDelay.cpp` — the per-sample render loop
  `GrainDelay::next_aa` and `GrainDelay::reset`.

Floating point (`float` / `double`) arithmetic is idealised as exact
rational arithmetic over `ℚ`.  The three transcendental library calls of
the render path (`std::cos` inside `hanningWindow`, `std::exp` inside
`OnePoleFilter`, `std::sqrt` in the overlap compensation) have no exact
rational counterpart; they are abstracted as explicit function parameters
(`TransFns`) of the engine step, so every definition stays computable.
All other SuperCollider primitives used by the code (`sc_clip`, `sc_wrap`,
`cubicinterp`) are pure and are embedded by their standard SuperCollider
definitions.
-/

set_option maxRecDepth 16000

namespace GrainDelayModel

/-- SuperCollider primitive `sc_clip(x, lo, hi)`: clamp `x` into `[lo, hi]`. -/
def sc_clip (x lo hi : ℚ) : ℚ :=
  if x < lo then lo else if x > hi then hi else x

/-- SuperCollider primitive `sc_wrap(int, int, int)`: positive modulo into
`[lo, hi]` (range `hi - lo + 1`), embedded for the in-range case `lo ≤ hi`
by the mathematical (always-nonnegative) integer remainder. -/
def sc_wrapInt (x lo hi : ℤ) : ℤ :=
  (x - lo) % (hi - lo + 1) + lo

/-- SuperCollider primitive `sc_wrap(float, float, float)`: wrap `x` into
`[lo, hi)`; for `hi ≠ lo` this equals `x - range * floor((x - lo) / range)`. -/
def sc_wrapQ (x lo hi : ℚ) : ℚ :=
  if hi = lo then lo else x - (hi - lo) * (⌊(x - lo) / (hi - lo)⌋ : ℤ)

/-- `Utils::lerp` (part_000 line 12). -/
def lerp (a b t : ℚ) : ℚ := a + t * (b - a)

/-- The float constant `Utils::TWO_PI` (part_000 line 17), taken at its
source literal value 6.28318530717958647692 (written as an explicit
fraction). -/
def TWO_PI : ℚ := 628318530717958647692 / 100000000000000000000

/-- `Utils::hanningWindow` (part_000 line 20), with `std::cos` abstracted
as the parameter `cosQ`. -/
def hanningWindow (cosQ : ℚ → ℚ) (phase : ℚ) : ℚ :=
  (1 - cosQ (phase * TWO_PI)) * (1 / 2)

/-- SuperCollider primitive `cubicinterp` (4-point 3rd-order Hermite). -/
def cubicinterp (x y0 y1 y2 y3 : ℚ) : ℚ :=
  let c0 := y1
  let c1 := (1 / 2) * (y2 - y0)
  let c2 := y0 - (5 / 2) * y1 + 2 * y2 - (1 / 2) * y3
  let c3 := (1 / 2) * (y3 - y0) + (3 / 2) * (y1 - y2)
  ((c3 * x + c2) * x + c1) * x + c0

/-- The C cast `static_cast<int>` on a real value: truncation toward zero. -/
def truncInt (q : ℚ) : ℤ :=
  if 0 ≤ q then ⌊q⌋ else ⌈q⌉

/-- The four wrapped tap indices computed by `Utils::peekCubicInterp`
(part_000 lines 29-35). -/
def interpIndices (bufSize : ℤ) (phase : ℚ) : List ℤ :=
  let intPart := truncInt phase
  [sc_wrapInt (intPart - 1) 0 (bufSize - 1),
   sc_wrapInt intPart 0 (bufSize - 1),
   sc_wrapInt (intPart + 1) 0 (bufSize - 1),
   sc_wrapInt (intPart + 2) 0 (bufSize - 1)]

/-- Reading `buffer[i]` for a wrapped (hence nonnegative) index. -/
def readIdx (buffer : List ℚ) (i : ℤ) : ℚ := buffer.getD i.toNat 0

/-- `Utils::peekCubicInterp` (part_000 lines 26-43). -/
def peekCubicInterp (buffer : List ℚ) (bufSize : ℤ) (phase : ℚ) : ℚ :=
  let intPart := truncInt phase
  let fracPart := phase - (intPart : ℚ)
  let idx := interpIndices bufSize phase
  cubicinterp fracPart
    (readIdx buffer (idx.getD 0 0)) (readIdx buffer (idx.getD 1 0))
    (readIdx buffer (idx.getD 2 0)) (readIdx buffer (idx.getD 3 0))

/-- `Utils::OnePoleNormalized::processLowpass` (part_000 lines 50-54):
returns `(output, new m_state)` (they coincide). -/
def OnePoleNormalized.processLowpass (state input coeff : ℚ) : ℚ × ℚ :=
  let c := sc_clip coeff 0 1
  let ns := input * (1 - c) + state * c
  (ns, ns)

/-- `Utils::OnePoleFilter::processLowpass` (part_000 lines 65-78), with
`std::exp` abstracted as the parameter `expQ`. -/
def OnePoleFilter.processLowpass (expQ : ℚ → ℚ) (state input cutoffHz sampleRate : ℚ) :
    ℚ × ℚ :=
  let slope := cutoffHz / sampleRate
  let safeSlope := |sc_clip slope (-(1 / 2)) (1 / 2)|
  let coeff := expQ (-TWO_PI * safeSlope)
  let ns := input * (1 - coeff) + state * coeff
  (ns, ns)

/-- `Utils::OnePoleFilter::processHighpass` (part_000 lines 80-83). -/
def OnePoleFilter.processHighpass (expQ : ℚ → ℚ) (state input cutoffHz sampleRate : ℚ) :
    ℚ × ℚ :=
  let lp := OnePoleFilter.processLowpass expQ state input cutoffHz sampleRate
  (input - lp.1, lp.2)

-- ===== TRIGGER AND TIMING =====

/-- State of `Utils::RampToTrig` (part_000 lines 92-116). -/
structure RampToTrig where
  lastPhase : ℚ
  lastWrap : Bool
deriving DecidableEq

/-- Initial `RampToTrig` state (`m_lastPhase = 0.0`, `m_lastWrap = false`). -/
def RampToTrig.init : RampToTrig := ⟨0, false⟩

/-- `Utils::RampToTrig::reset` (part_000 lines 112-115). -/
def RampToTrig.reset (_t : RampToTrig) : RampToTrig := ⟨0, false⟩

/-- The wrap condition of `RampToTrig::process` (part_000 lines 98-100):
`sum ≠ 0 && |delta / sum| > 0.5`. -/
def wrapCond (current last : ℚ) : Bool :=
  decide (current + last ≠ 0) && decide (|(current - last) / (current + last)| > 1 / 2)

/-- `Utils::RampToTrig::process` (part_000 lines 96-110): returns the
trigger together with the updated state. -/
def RampToTrig.process (t : RampToTrig) (currentPhase : ℚ) : Bool × RampToTrig :=
  let currentWrap := wrapCond currentPhase t.lastPhase
  (currentWrap && !t.lastWrap, ⟨currentPhase, currentWrap⟩)

/-- Running `RampToTrig::process` over a list of per-sample phases. -/
def RampToTrig.runFrom (t : RampToTrig) : List ℚ → List Bool
  | [] => []
  | p :: ps =>
    let s := t.process p
    s.1 :: s.2.runFrom ps

-- ===== EVENT SYSTEM =====

/-- One voice slot of `Utils::EventSystem`: the `ch`-th entries of the
parallel vectors `channelPhases`, `channelSlopes`, `channelOffsets`,
`isActive`, `justTriggered` (part_000 lines 128-132). -/
structure Voice where
  phase : ℚ
  slope : ℚ
  offset : ℚ
  active : Bool
  justTriggered : Bool
deriving DecidableEq

/-- A freshly constructed voice slot (all vectors initialised to 0 / false,
part_000 lines 136-140). -/
def Voice.init : Voice := ⟨0, 0, 0, false, false⟩

/-- Clearing the `justTriggered` flag (part_000 line 153). -/
def clearTrigger (v : Voice) : Voice := { v with justTriggered := false }

/-- The voice written by a trigger that finds a free slot
(part_000 lines 175-179). -/
def triggeredVoice (slope overlap phase : ℚ) : Voice :=
  { phase := (slope / overlap) * (phase / slope)
    slope := slope / overlap
    offset := phase / slope
    active := true
    justTriggered := true }

/-- The voice-allocation scan (part_000 lines 172-182): replace the first
inactive slot by the freshly triggered voice; leave everything else alone. -/
def allocate (slope overlap phase : ℚ) : List Voice → List Voice
  | [] => []
  | v :: rest =>
    if v.active then v :: allocate slope overlap phase rest
    else triggeredVoice slope overlap phase :: rest

/-- Per-voice processing (part_000 lines 186-203): returns this voice's
output sample and its updated state. -/
def voiceStep (v : Voice) : ℚ × Voice :=
  if v.active = false then (0, v)
  else
    let ph := if v.justTriggered then v.phase else v.phase + v.slope
    if ph ≥ 1 then (0, { v with phase := ph, active := false })
    else (ph, { v with phase := ph })

/-- State of `Utils::EventSystem` (part_000 lines 118-141). -/
structure EventSystem where
  trigDetect : RampToTrig
  phase : ℚ
  slope : ℚ
  wrapNext : Bool
  voices : List Voice
deriving DecidableEq

/-- `EventSystem` as constructed with `channels` voice slots
(part_000 lines 135-141). -/
def EventSystem.init (channels : ℕ) : EventSystem :=
  ⟨RampToTrig.init, 0, 0, false, List.replicate channels Voice.init⟩

/-- `Utils::EventSystem::reset` (part_000 lines 216-226). -/
def EventSystem.reset (s : EventSystem) : EventSystem :=
  ⟨s.trigDetect.reset, 0, 0, false, List.replicate s.voices.length Voice.init⟩

/-- The slope in effect for the current sample: seeded from
`rate / sampleRate` when still zero (part_000 lines 156-158), re-latched to
`rate / sampleRate` when a deferred wrap is applied (line 163). -/
def EventSystem.effSlope (s : EventSystem) (rate sampleRate : ℚ) : ℚ :=
  if s.wrapNext then rate / sampleRate
  else if s.slope = 0 then rate / sampleRate else s.slope

/-- The master phase in effect for the current sample: decremented by one
when a deferred wrap is applied (part_000 line 162). -/
def EventSystem.effPhase (s : EventSystem) : ℚ :=
  if s.wrapNext then s.phase - 1 else s.phase

/-- `Utils::EventSystem::process` (part_000 lines 143-214): one sample of
the event system, returning the per-voice outputs and the updated state. -/
def EventSystem.process (s : EventSystem) (rate : ℚ) (resetTrigger : Bool)
    (overlap sampleRate : ℚ) : List ℚ × EventSystem :=
  if resetTrigger then
    (List.replicate s.voices.length 0, s.reset)
  else
    let voices1 := s.voices.map clearTrigger
    let slope1 := s.effSlope rate sampleRate
    let phase1 := s.effPhase
    let tr := s.trigDetect.process phase1
    let voices2 :=
      if tr.1 = true ∧ slope1 ≠ 0 then allocate slope1 overlap phase1 voices1
      else voices1
    let stepped := voices2.map voiceStep
    let phase2 := phase1 + slope1
    (stepped.map Prod.fst,
     { trigDetect := tr.2
       phase := phase2
       slope := slope1
       wrapNext := decide (phase2 ≥ 1)
       voices := stepped.map Prod.snd })

/-- Iterating `EventSystem::process` with constant inputs and the reset
gate held low. -/
def EventSystem.iterate (s : EventSystem) (rate overlap sampleRate : ℚ) : ℕ → EventSystem
  | 0 => s
  | n + 1 => ((s.iterate rate overlap sampleRate n).process rate false overlap sampleRate).2

/-- Number of active voice slots. -/
def countActive (vs : List Voice) : ℕ := (vs.filter (fun v => v.active)).length

-- ===== GRAIN DELAY ENGINE (GrainDelay.cpp) =====

/-- The transcendental library calls of the render path, abstracted as
explicit rational-valued functions: `cosQ` for `std::cos` (inside
`hanningWindow`), `expQ` for `std::exp` (inside `OnePoleFilter`), `sqrtQ`
for `std::sqrt` (overlap compensation). -/
structure TransFns where
  cosQ : ℚ → ℚ
  expQ : ℚ → ℚ
  sqrtQ : ℚ → ℚ

/-- Per-voice grain read state `GrainData` (declared in the plugin header;
its fields are exactly the ones `next_aa` uses: `readPos`, `rate`,
`hasTriggered`, `phase`).  Modelled from the spec: the header with the
member declarations and default values is not under `src/`; the spec's
`reset()` clause says the per-voice grain-read state resets "to defaults",
embedded here as zero / false. -/
structure GrainData where
  readPos : ℚ
  rate : ℚ
  hasTriggered : Bool
  phase : ℚ
deriving DecidableEq

/-- Default-constructed `GrainData{}`. -/
def GrainData.init : GrainData := ⟨0, 0, false, 0⟩

/-- Construction-time constants of `GrainDelay` (GrainDelay.cpp lines
8-21): host sample rate, one-sample duration, `MAX_DELAY_TIME`, the float
frame count `m_bufFrames = MAX_DELAY_TIME * m_sampleRate`, its integer
truncation `m_bufSize`, and `NUM_CHANNELS` (32 by default). -/
structure GrainConsts where
  sampleRate : ℚ
  sampleDur : ℚ
  maxDelayTime : ℚ
  bufFrames : ℚ
  bufSize : ℤ
  numChannels : ℕ

/-- Mutable state of one `GrainDelay` instance. -/
structure GrainDelayState where
  eventSystem : EventSystem
  buffer : List ℚ
  writePos : ℤ
  grainData : List GrainData
  dampingState : ℚ
  dcBlockState : ℚ
deriving DecidableEq

/-- The control-rate parameter conditioning of `next_aa` (GrainDelay.cpp
lines 37-41): `mix`, `feedback`, `damping` clipped, `freeze` and `reset`
gates read with threshold 0.5. -/
structure BlockControls where
  mix : ℚ
  feedback : ℚ
  damping : ℚ
  freeze : Bool
  reset : Bool
deriving DecidableEq

/-- GrainDelay.cpp lines 37-41. -/
def blockControls (mixIn feedbackIn dampingIn freezeIn resetIn : ℚ) : BlockControls :=
  { mix := sc_clip mixIn 0 1
    feedback := sc_clip feedbackIn 0 (99 / 100)
    damping := sc_clip dampingIn 0 1
    freeze := decide (freezeIn > 1 / 2)
    reset := decide (resetIn > 1 / 2) }

/-- The per-sample value of the trigger-rate parameter (GrainDelay.cpp
line 46): read raw, with no clipping. -/
def usedTriggerRate (x : ℚ) : ℚ := x

/-- The per-sample value of the overlap parameter (GrainDelay.cpp line 47):
clipped to `[0.001, NUM_CHANNELS]`. -/
def usedOverlap (c : GrainConsts) (x : ℚ) : ℚ :=
  sc_clip x (1 / 1000) (c.numChannels : ℚ)

/-- The per-sample value of the delay-time parameter (GrainDelay.cpp
line 48): clipped to `[m_sampleDur, MAX_DELAY_TIME]`. -/
def usedDelayTime (c : GrainConsts) (x : ℚ) : ℚ :=
  sc_clip x c.sampleDur c.maxDelayTime

/-- The per-sample value of the grain-rate parameter (GrainDelay.cpp
line 49): clipped to `[0.125, 4.0]`. -/
def usedGrainRate (x : ℚ) : ℚ :=
  sc_clip x (1 / 8) 4

/-- `std::max` on rationals (returns the second argument when the first
compares smaller). -/
def stdMax (a b : ℚ) : ℚ := if a < b then b else a

/-- One grain of step 2 of `next_aa` (GrainDelay.cpp lines 62-99): given
the post-`process` voice slot `v`, its envelope output `envPhase` and its
stored `GrainData`, trigger the grain data if `justTriggered`, then, if the
voice is active, advance the grain phase and read the (windowed) grain
sample.  Returns the grain's contribution to `delayed` and the updated
`GrainData`. -/
def grainStep (tf : TransFns) (c : GrainConsts) (buffer : List ℚ) (writePos : ℤ)
    (delayTime grainRate : ℚ) (v : Voice) (envPhase : ℚ) (gd : GrainData) :
    ℚ × GrainData :=
  let gd1 :=
    if v.justTriggered then
      let normalizedWritePos := (writePos : ℚ) / c.bufFrames
      let normalizedDelay := stdMax c.sampleDur (delayTime * c.sampleRate / c.bufFrames)
      let readPos := sc_wrapQ (normalizedWritePos - normalizedDelay) 0 1
      { readPos := readPos, rate := grainRate, hasTriggered := true
        phase := grainRate * v.offset }
    else gd
  if v.active then
    let gd2 := { gd1 with phase := gd1.phase + gd1.rate }
    let grainPhase := gd2.readPos * c.bufFrames + gd2.phase
    let grainSample :=
      peekCubicInterp buffer c.bufSize grainPhase * hanningWindow tf.cosQ envPhase
    (grainSample, gd2)
  else (0, gd1)

/-- The grain loop of `next_aa` (GrainDelay.cpp lines 60-99) over the
voice slots, their envelope outputs and their grain data: returns the
accumulated `delayed` signal and the updated grain data. -/
def processGrains (tf : TransFns) (c : GrainConsts) (buffer : List ℚ) (writePos : ℤ)
    (delayTime grainRate : ℚ) :
    List Voice → List ℚ → List GrainData → ℚ × List GrainData
  | v :: vs, e :: es, g :: gs =>
    let hd := grainStep tf c buffer writePos delayTime grainRate v e g
    let tl := processGrains tf c buffer writePos delayTime grainRate vs es gs
    (hd.1 + tl.1, hd.2 :: tl.2)
  | _, _, _ => (0, [])

/-- One loop iteration of `GrainDelay::next_aa` (GrainDelay.cpp lines
43-120): one processed sample.  Returns the output sample and the updated
engine state. -/
def GrainDelay.step (tf : TransFns) (c : GrainConsts) (ctl : BlockControls)
    (inputSample triggerRateIn overlapIn delayTimeIn grainRateIn : ℚ)
    (s : GrainDelayState) : ℚ × GrainDelayState :=
  let triggerRate := usedTriggerRate triggerRateIn
  let overlap := usedOverlap c overlapIn
  let delayTime := usedDelayTime c delayTimeIn
  let grainRate := usedGrainRate grainRateIn
  let esr := s.eventSystem.process triggerRate ctl.reset overlap c.sampleRate
  let gr := processGrains tf c s.buffer s.writePos delayTime grainRate
    esr.2.voices esr.1 s.grainData
  let effectiveOverlap := stdMax 1 overlap
  let compensationGain := 1 / tf.sqrtQ effectiveOverlap
  let delayed := gr.1 * compensationGain
  let df := OnePoleNormalized.processLowpass s.dampingState delayed ctl.damping
  let dc := OnePoleFilter.processHighpass tf.expQ s.dcBlockState inputSample 3 c.sampleRate
  let bw : List ℚ × ℤ :=
    if ctl.freeze then (s.buffer, s.writePos)
    else (s.buffer.set s.writePos.toNat (dc.1 + df.1 * ctl.feedback),
          sc_wrapInt (s.writePos + 1) 0 (c.bufSize - 1))
  (lerp inputSample delayed ctl.mix,
   { eventSystem := esr.2
     buffer := bw.1
     writePos := bw.2
     grainData := gr.2
     dampingState := df.2
     dcBlockState := dc.2 })

/-- `GrainDelay::reset` (GrainDelay.cpp lines 123-133).  Note: nothing in
the render path `next_aa` invokes this member; the reset gate only reaches
`EventSystem::process`. -/
def GrainDelay.fullReset (s : GrainDelayState) : GrainDelayState :=
  { eventSystem := s.eventSystem.reset
    buffer := s.buffer
    writePos := 0
    grainData := s.grainData.map (fun _ => GrainData.init)
    dampingState := 0
    dcBlockState := 0 }

example : countActive (EventSystem.init 4).voices = 0 := by decide

-- ===== HELPER LEMMAS =====

theorem sc_wrapInt_bounds (x n : ℤ) (h : 0 < n) :
    0 ≤ sc_wrapInt x 0 (n - 1) ∧ sc_wrapInt x 0 (n - 1) ≤ n - 1 := by
  have hne : n ≠ 0 := by omega
  unfold sc_wrapInt
  simp only [sub_zero, add_zero]
  have he : n - 1 + 1 = n := by ring
  rw [he]
  refine ⟨Int.emod_nonneg x hne, ?_⟩
  have := Int.emod_lt_of_pos x h
  omega

theorem allocate_of_all_active (sl ov ph : ℚ) :
    ∀ vs : List Voice, (∀ v ∈ vs, v.active = true) → allocate sl ov ph vs = vs := by
  intro vs h
  induction vs with
  | nil => rfl
  | cons v rest ih =>
    have hv : v.active = true := h v (by simp)
    simp only [allocate, hv, if_true]
    rw [ih (fun u hu => h u (by simp [hu]))]

theorem allocate_length (sl ov ph : ℚ) (vs : List Voice) :
    (allocate sl ov ph vs).length = vs.length := by
  induction vs with
  | nil => rfl
  | cons v rest ih =>
    cases hv : v.active <;> simp [allocate, hv, ih]

theorem process_voices_length (s : EventSystem) (rate : ℚ) (rst : Bool) (ov sr : ℚ) :
    (s.process rate rst ov sr).2.voices.length = s.voices.length := by
  cases rst with
  | true => simp [EventSystem.process, EventSystem.reset]
  | false =>
    simp only [EventSystem.process, Bool.false_eq_true, if_false]
    split <;> simp [allocate_length]

theorem voiceStep_fst_lt_one (v : Voice) : (voiceStep v).1 < 1 := by
  simp only [voiceStep]
  split_ifs <;> norm_num <;> linarith

theorem voiceStep_inactive (v : Voice) (h : v.active = false) : voiceStep v = (0, v) := by
  simp [voiceStep, h]

theorem voiceStep_slope (v : Voice) : (voiceStep v).2.slope = v.slope := by
  simp only [voiceStep]
  split_ifs <;> rfl

theorem voiceStep_offset (v : Voice) : (voiceStep v).2.offset = v.offset := by
  simp only [voiceStep]
  split_ifs <;> rfl

theorem voiceStep_phase_advance (v : Voice) (ha : v.active = true)
    (hj : v.justTriggered = false) : (voiceStep v).2.phase = v.phase + v.slope := by
  simp only [voiceStep, ha, hj]
  norm_num
  split_ifs <;> rfl

theorem voiceStep_phase_triggered (v : Voice) (hj : v.justTriggered = true) :
    (voiceStep v).2.phase = v.phase := by
  simp only [voiceStep, hj]
  split_ifs <;> rfl

theorem voiceStep_deactivates (v : Voice) (ha : v.active = true)
    (hj : v.justTriggered = false) (hge : v.phase + v.slope ≥ 1) :
    (voiceStep v).1 = 0 ∧ (voiceStep v).2.active = false := by
  simp [voiceStep, ha, hj, hge]

theorem voiceStep_nonzero (v : Voice) (h : (voiceStep v).1 ≠ 0) :
    (voiceStep v).1 = (voiceStep v).2.phase := by
  revert h
  simp only [voiceStep]
  split_ifs <;> intro h
  · exact absurd rfl h
  · exact absurd rfl h
  · rfl
  · exact absurd rfl h
  · rfl

theorem clearTrigger_active (v : Voice) : (clearTrigger v).active = v.active := rfl

theorem getD_map {α β : Type} (f : α → β) (da : α) (db : β) (l : List α) (i : ℕ)
    (h : i < l.length) : (l.map f).getD i db = f (l.getD i da) := by
  induction l generalizing i with
  | nil => simp at h
  | cons a t ih =>
    cases i with
    | zero => rfl
    | succ n =>
      simp only [List.map_cons, List.getD_cons_succ]
      exact ih n (by simpa using h)

theorem getD_append_self (l : List Voice) (x : Voice) (r : List Voice) (d : Voice) :
    (l ++ x :: r).getD l.length d = x := by
  induction l with
  | nil => rfl
  | cons a t ih => simpa using ih

theorem allocate_getD_of_active (sl ov ph : ℚ) (vs : List Voice) (i : ℕ)
    (h : (vs.getD i Voice.init).active = true) :
    (allocate sl ov ph vs).getD i Voice.init = vs.getD i Voice.init := by
  induction vs generalizing i with
  | nil => rfl
  | cons v rest ih =>
    cases hv : v.active with
    | true =>
      cases i with
      | zero => simp [allocate, hv]
      | succ n =>
        simp only [allocate, hv, if_true, List.getD_cons_succ]
        exact ih n (by simpa using h)
    | false =>
      cases i with
      | zero =>
        exfalso
        rw [List.getD_cons_zero] at h
        rw [h] at hv
        exact Bool.true_eq_false.mp hv
      | succ n => simp [allocate, hv]

theorem getD_big_default (vs : List Voice) (i : ℕ) (h : vs.length ≤ i) :
    vs.getD i Voice.init = Voice.init :=
  List.getD_eq_default _ _ h

theorem allocate_first_free (sl ov ph : ℚ) :
    ∀ (l : List Voice) (v : Voice) (r : List Voice),
      (∀ u ∈ l, u.active = true) → v.active = false →
      allocate sl ov ph (l ++ v :: r) = l ++ triggeredVoice sl ov ph :: r := by
  intro l
  induction l with
  | nil =>
    intro v r _ hv
    simp [allocate, hv]
  | cons a t ih =>
    intro v r hl hv
    have ha : a.active = true := hl a (by simp)
    have step : allocate sl ov ph ((a :: t) ++ v :: r)
        = a :: allocate sl ov ph (t ++ v :: r) := by
      rw [List.cons_append]
      show (if a.active = true then a :: allocate sl ov ph (t ++ v :: r)
            else triggeredVoice sl ov ph :: (t ++ v :: r)) = _
      rw [if_pos ha]
    rw [step, ih v r (fun u hu => hl u (by simp [hu])) hv]
    rfl

-- ===== CLAIM C9 =====

/-- C9: for every real-valued read position (negative or beyond the buffer
length included) and every buffer of size at least 1, all four
interpolation tap indices computed by `peekCubicInterp` are wrapped into
`[0, bufSize - 1]`, so every buffer access of the grain-read path is in
bounds. -/
theorem claim9_interp_in_bounds (bufSize : ℤ) (phase : ℚ) (h : 1 ≤ bufSize) :
    ∀ i ∈ interpIndices bufSize phase, 0 ≤ i ∧ i ≤ bufSize - 1 := by
  have hp : 0 < bufSize := h
  intro i hi
  unfold interpIndices at hi
  simp only [List.mem_cons, List.not_mem_nil, or_false] at hi
  rcases hi with h1 | h1 | h1 | h1 <;> subst h1 <;> exact sc_wrapInt_bounds _ _ hp

/-- C9 witness: concrete negative read position `-7/2` in a buffer of
size 4. -/
theorem claim9_witness :
    0 ≤ (interpIndices 4 (-(7 / 2 : ℚ))).getD 0 0 ∧
      (interpIndices 4 (-(7 / 2 : ℚ))).getD 0 0 ≤ 4 - 1 :=
  claim9_interp_in_bounds 4 (-(7 / 2)) (by decide)
    ((interpIndices 4 (-(7 / 2 : ℚ))).getD 0 0) (by with_unfolding_all decide)

-- ===== CLAIM C2 =====

/-- C2: the number of active voices after any `EventSystem::process` call
never exceeds the fixed channel count (the voice-vector length, which the
call preserves); the allocation scan run when all slots are active leaves
the voice list exactly unchanged (the grain is silently dropped, no voice
stolen, nothing queued), so with every slot busy the processed voices are
just the per-voice advance of the old ones. -/
theorem claim2_voice_bound :
    (∀ (s : EventSystem) (rate : ℚ) (rst : Bool) (ov sr : ℚ),
       countActive (s.process rate rst ov sr).2.voices ≤ s.voices.length ∧
       (s.process rate rst ov sr).2.voices.length = s.voices.length) ∧
    (∀ (sl ov ph : ℚ) (vs : List Voice), (∀ v ∈ vs, v.active = true) →
       allocate sl ov ph vs = vs) ∧
    (∀ (s : EventSystem) (rate ov sr : ℚ), (∀ v ∈ s.voices, v.active = true) →
       (s.process rate false ov sr).2.voices
         = (s.voices.map clearTrigger).map (fun v => (voiceStep v).2)) := by
  refine ⟨fun s rate rst ov sr => ⟨?_, process_voices_length s rate rst ov sr⟩,
    fun sl ov ph vs h => allocate_of_all_active sl ov ph vs h,
    fun s rate ov sr h => ?_⟩
  · calc countActive (s.process rate rst ov sr).2.voices
        ≤ (s.process rate rst ov sr).2.voices.length := List.length_filter_le _ _
      _ = s.voices.length := process_voices_length s rate rst ov sr
  · have hall : ∀ v ∈ s.voices.map clearTrigger, v.active = true := by
      intro v hv
      rcases List.mem_map.mp hv with ⟨u, hu, rfl⟩
      rw [clearTrigger_active]
      exact h u hu
    simp only [EventSystem.process, Bool.false_eq_true, if_false]
    split
    · rw [allocate_of_all_active _ _ _ _ hall, List.map_map]
      rfl
    · rw [List.map_map]
      rfl

/-- C2 witness: a two-voice system with both slots active. -/
theorem claim2_witness :
    ((EventSystem.mk ⟨0, false⟩ (1 / 2) (1 / 4) false
        [⟨1 / 4, 1 / 4, 0, true, false⟩, ⟨1 / 2, 1 / 4, 0, true, false⟩]).process
          1 false 1 4).2.voices
      = (([⟨1 / 4, 1 / 4, 0, true, false⟩,
           (⟨1 / 2, 1 / 4, 0, true, false⟩ : Voice)]).map clearTrigger).map
          (fun v => (voiceStep v).2) :=
  claim2_voice_bound.2.2
    (EventSystem.mk ⟨0, false⟩ (1 / 2) (1 / 4) false
      [⟨1 / 4, 1 / 4, 0, true, false⟩, ⟨1 / 2, 1 / 4, 0, true, false⟩])
    1 1 4 (by with_unfolding_all decide)

-- ===== CLAIM C10 =====

/-- C10: every per-voice value returned by `EventSystem::process` is
strictly less than 1; a voice that is inactive at its processing step
outputs exactly 0 and is untouched; an active voice whose advanced
envelope phase reaches 1 is deactivated and outputs 0 on that same sample;
any nonzero output equals the voice's current (updated) envelope phase,
which is strictly below 1. -/
theorem claim10_envelope_lt_one :
    (∀ (s : EventSystem) (rate : ℚ) (rst : Bool) (ov sr : ℚ),
       ∀ x ∈ (s.process rate rst ov sr).1, x < 1) ∧
    (∀ v : Voice, v.active = false → voiceStep v = (0, v)) ∧
    (∀ v : Voice, v.active = true → v.justTriggered = false →
       v.phase + v.slope ≥ 1 →
       (voiceStep v).1 = 0 ∧ (voiceStep v).2.active = false) ∧
    (∀ v : Voice, (voiceStep v).1 ≠ 0 →
       (voiceStep v).1 = (voiceStep v).2.phase ∧ (voiceStep v).1 < 1) := by
  refine ⟨fun s rate rst ov sr x hx => ?_, fun v h => voiceStep_inactive v h,
    fun v ha hj hge => ?_, fun v h => ⟨?_, voiceStep_fst_lt_one v⟩⟩
  · cases rst with
    | true =>
      simp only [EventSystem.process, if_true] at hx
      rw [List.eq_of_mem_replicate hx]
      norm_num
    | false =>
      simp only [EventSystem.process, Bool.false_eq_true, if_false, List.map_map] at hx
      rcases List.mem_map.mp hx with ⟨u, _, rfl⟩
      exact voiceStep_fst_lt_one u
  · exact voiceStep_deactivates v ha hj hge
  · exact voiceStep_nonzero v h

/-- C10 witness: an active voice at phase 3/4 with slope 1/2 crosses 1 and
is deactivated with zero output. -/
theorem claim10_witness :
    (voiceStep ⟨3 / 4, 1 / 2, 0, true, false⟩).1 = 0 ∧
      (voiceStep ⟨3 / 4, 1 / 2, 0, true, false⟩).2.active = false :=
  claim10_envelope_lt_one.2.2.1 ⟨3 / 4, 1 / 2, 0, true, false⟩ rfl rfl
    (by with_unfolding_all decide)

-- ===== CLAIM C3 =====

/-- The phase value `RampToTrig` holds in `m_lastPhase` when the `n`-th
element of a phase sequence is processed, starting from state `t`. -/
def prevPhaseFrom (t : RampToTrig) (phases : List ℚ) : ℕ → ℚ
  | 0 => t.lastPhase
  | n + 1 => phases.getD n 0

/-- The value `RampToTrig` holds in `m_lastWrap` when the `n`-th element
of a phase sequence is processed, starting from state `t`. -/
def prevWrapFrom (t : RampToTrig) (phases : List ℚ) : ℕ → Bool
  | 0 => t.lastWrap
  | n + 1 => wrapCond (phases.getD n 0) (prevPhaseFrom t phases n)

theorem prevPhaseFrom_cons (t : RampToTrig) (p : ℚ) (ps : List ℚ) (n : ℕ) :
    prevPhaseFrom ⟨p, wrapCond p t.lastPhase⟩ ps n = prevPhaseFrom t (p :: ps) (n + 1) := by
  cases n with
  | zero => rfl
  | succ m => rfl

theorem prevWrapFrom_cons (t : RampToTrig) (p : ℚ) (ps : List ℚ) (n : ℕ) :
    prevWrapFrom ⟨p, wrapCond p t.lastPhase⟩ ps n = prevWrapFrom t (p :: ps) (n + 1) := by
  cases n with
  | zero => rfl
  | succ m =>
    show wrapCond (ps.getD m 0) (prevPhaseFrom ⟨p, wrapCond p t.lastPhase⟩ ps m)
      = wrapCond ((p :: ps).getD (m + 1) 0) (prevPhaseFrom t (p :: ps) (m + 1))
    rw [prevPhaseFrom_cons]
    rfl

theorem runFrom_getD (phases : List ℚ) :
    ∀ (t : RampToTrig) (n : ℕ), n < phases.length →
      (t.runFrom phases).getD n false
        = (wrapCond (phases.getD n 0) (prevPhaseFrom t phases n)
            && !(prevWrapFrom t phases n)) := by
  induction phases with
  | nil => intro t n h; simp at h
  | cons p ps ih =>
    intro t n h
    cases n with
    | zero => rfl
    | succ m =>
      have hm : m < ps.length := by simpa using h
      have := ih ⟨p, wrapCond p t.lastPhase⟩ m hm
      calc (t.runFrom (p :: ps)).getD (m + 1) false
          = ((RampToTrig.mk p (wrapCond p t.lastPhase)).runFrom ps).getD m false := rfl
        _ = (wrapCond (ps.getD m 0)
              (prevPhaseFrom ⟨p, wrapCond p t.lastPhase⟩ ps m)
              && !(prevWrapFrom ⟨p, wrapCond p t.lastPhase⟩ ps m)) := this
        _ = _ := by rw [prevPhaseFrom_cons, prevWrapFrom_cons]; rfl

/-- C3: starting from the initial detector state, the `n`-th trigger of
`RampToTrig::process` over any phase sequence is true exactly when the
wrap condition holds for that sample and did not hold for the previous
sample; consequently, when the wrap condition is detectable on two
consecutive samples, the second sample produces no trigger (at most one
trigger per wraparound). -/
theorem claim3_trigger_edge (phases : List ℚ) (n : ℕ) (h : n < phases.length) :
    ((RampToTrig.init.runFrom phases).getD n false
      = (wrapCond (phases.getD n 0) (prevPhaseFrom RampToTrig.init phases n)
          && !(prevWrapFrom RampToTrig.init phases n))) ∧
    (∀ m : ℕ, m + 1 < phases.length →
       wrapCond (phases.getD (m + 1) 0) (phases.getD m 0) = true →
       wrapCond (phases.getD m 0) (prevPhaseFrom RampToTrig.init phases m) = true →
       (RampToTrig.init.runFrom phases).getD (m + 1) false = false) := by
  refine ⟨runFrom_getD phases RampToTrig.init n h, fun m hm h1 h2 => ?_⟩
  rw [runFrom_getD phases RampToTrig.init (m + 1) hm]
  have hp : prevWrapFrom RampToTrig.init phases (m + 1) = true := by
    unfold prevWrapFrom
    exact h2
  rw [hp]
  simp

/-- C3 witness: the sequence 9/10, 1/20, 1/10 wraps at index 1, and the
wrap condition also holds at index 2, where the trigger is suppressed. -/
theorem claim3_witness :
    (RampToTrig.init.runFrom [(9 : ℚ) / 10, 1 / 20, 1 / 10]).getD 1 false
      = (wrapCond (([(9 : ℚ) / 10, 1 / 20, 1 / 10]).getD 1 0)
          (prevPhaseFrom RampToTrig.init [(9 : ℚ) / 10, 1 / 20, 1 / 10] 1)
          && !(prevWrapFrom RampToTrig.init [(9 : ℚ) / 10, 1 / 20, 1 / 10] 1)) :=
  (claim3_trigger_edge [(9 : ℚ) / 10, 1 / 20, 1 / 10] 1 (by decide)).1

example :
    ((EventSystem.init 2).process 1 false 1 4).2.slope = 1 / 4 := by
  with_unfolding_all decide

example :
    countActive ((EventSystem.init 2).iterate 1 1 4 2).voices = 1 := by
  with_unfolding_all decide

example :
    countActive ((EventSystem.init 2).iterate 1 1 4 9).voices = 1 := by
  with_unfolding_all decide

-- ===== CLAIM C4 =====

theorem sc_clip_bounds (x lo hi : ℚ) (h : lo ≤ hi) :
    lo ≤ sc_clip x lo hi ∧ sc_clip x lo hi ≤ hi := by
  unfold sc_clip
  split_ifs with h1 h2
  · exact ⟨le_refl lo, h⟩
  · exact ⟨h, le_refl hi⟩
  · exact ⟨le_of_not_lt h1, le_of_not_lt h2⟩

/-- Construction constants of a 48 kHz, 5-second, 32-voice instance. -/
def stdConsts : GrainConsts :=
  { sampleRate := 48000, sampleDur := 1 / 48000, maxDelayTime := 5
    bufFrames := 240000, bufSize := 240000, numChannels := 32 }

/-- C4 counterexample: at raw input -1000000, the trigger-rate parameter
is used completely unclipped (the value handed to the event system is
-1000000 itself), while overlap, delay time and grain rate are clipped to
their documented ranges at that same raw input — the claim that all four
audio-rate parameters are clipped before use is false for the trigger
rate. -/
theorem claim4_cex :
    usedTriggerRate (-(1000000 : ℚ)) = -1000000 ∧
    usedOverlap stdConsts (-(1000000 : ℚ)) = 1 / 1000 ∧
    usedDelayTime stdConsts (-(1000000 : ℚ)) = 1 / 48000 ∧
    usedGrainRate (-(1000000 : ℚ)) = 1 / 8 := by
  refine ⟨rfl, ?_, ?_, ?_⟩ <;>
    norm_num [usedOverlap, usedDelayTime, usedGrainRate, sc_clip, stdConsts]

/-- C4 amended: of the four audio-rate parameters, overlap is clipped to
`[0.001, NUM_CHANNELS]`, delay time to `[oneSampleDuration,
MAX_DELAY_TIME]` and grain rate to `[0.125, 4]` before use, per sample —
but the trigger rate is used raw, with no clipping, and is handed to the
event system unchanged. -/
theorem claim4_clipping :
    (∀ x : ℚ, usedTriggerRate x = x) ∧
    (∀ (c : GrainConsts) (x : ℚ), (1 : ℚ) ≤ (c.numChannels : ℚ) →
       1 / 1000 ≤ usedOverlap c x ∧ usedOverlap c x ≤ (c.numChannels : ℚ)) ∧
    (∀ (c : GrainConsts) (x : ℚ), c.sampleDur ≤ c.maxDelayTime →
       c.sampleDur ≤ usedDelayTime c x ∧ usedDelayTime c x ≤ c.maxDelayTime) ∧
    (∀ x : ℚ, 1 / 8 ≤ usedGrainRate x ∧ usedGrainRate x ≤ 4) ∧
    (∀ (tf : TransFns) (c : GrainConsts) (ctl : BlockControls)
       (inp tr ov dt gr : ℚ) (s : GrainDelayState),
       (GrainDelay.step tf c ctl inp tr ov dt gr s).2.eventSystem
         = (s.eventSystem.process (usedTriggerRate tr) ctl.reset (usedOverlap c ov)
             c.sampleRate).2) := by
  refine ⟨fun x => rfl, fun c x h => ?_, fun c x h => sc_clip_bounds x _ _ h,
    fun x => sc_clip_bounds x _ _ (by norm_num), fun tf c ctl inp tr ov dt gr s => rfl⟩
  exact sc_clip_bounds x _ _ (le_trans (by norm_num) h)

/-- C4 witness: overlap raw input 50 on the 32-voice instance is clipped
into `[0.001, 32]`. -/
theorem claim4_witness :
    1 / 1000 ≤ usedOverlap stdConsts 50 ∧
      usedOverlap stdConsts 50 ≤ (stdConsts.numChannels : ℚ) :=
  claim4_clipping.2.1 stdConsts 50 (by with_unfolding_all decide)

-- ===== CLAIM C1 =====

/-- All-zero instantiation of the abstracted transcendentals; the C1
counterexample only concerns state components (write head, damping-filter
state) whose updates do not depend on them. -/
def zeroFns : TransFns := ⟨fun _ => 0, fun _ => 0, fun _ => 0⟩

/-- Demo construction constants: sample rate 4, one-second maximum delay
(4-frame buffer), one voice. -/
def demoConsts : GrainConsts :=
  { sampleRate := 4, sampleDur := 1 / 4, maxDelayTime := 1
    bufFrames := 4, bufSize := 4, numChannels := 1 }

/-- A small one-voice engine state mid-stream: write head at 2,
damping-filter state 1, one active voice. -/
def c1State : GrainDelayState :=
  { eventSystem := ⟨⟨0, false⟩, 1 / 2, 1 / 4, false, [⟨1 / 4, 1 / 4, 0, true, false⟩]⟩
    buffer := [0, 0, 0, 0]
    writePos := 2
    grainData := [GrainData.init]
    dampingState := 1
    dcBlockState := 0 }

/-- C1 counterexample: one sample processed with the reset gate high (raw
reset input 1 > 0.5, damping 1).  Afterwards the write head is 3 — it
advanced instead of being zeroed — and the damping-filter state is still
1.  The render path's reset gate resets only the event system; it never
zeroes the write head or the filter states (`GrainDelay::reset` would,
but `next_aa` does not invoke it). -/
theorem claim1_cex :
    (blockControls 0 1 1 0 1).reset = true ∧
    (GrainDelay.step zeroFns demoConsts (blockControls 0 1 1 0 1) 0 1 1 (1 / 2) 1
        c1State).2.writePos = 3 ∧
    (GrainDelay.step zeroFns demoConsts (blockControls 0 1 1 0 1) 0 1 1 (1 / 2) 1
        c1State).2.dampingState = 1 := by
  with_unfolding_all decide

theorem processGrains_replicate_init (tf : TransFns) (c : GrainConsts) (buffer : List ℚ)
    (wp : ℤ) (dtv grv : ℚ) :
    ∀ (n : ℕ) (gds : List GrainData),
      (processGrains tf c buffer wp dtv grv (List.replicate n Voice.init)
        (List.replicate n 0) gds).1 = 0 := by
  intro n
  induction n with
  | zero => intro gds; rfl
  | succ m ih =>
    intro gds
    cases gds with
    | nil => rfl
    | cons g gs =>
      calc (processGrains tf c buffer wp dtv grv (List.replicate (m + 1) Voice.init)
              (List.replicate (m + 1) 0) (g :: gs)).1
          = (grainStep tf c buffer wp dtv grv Voice.init 0 g).1
            + (processGrains tf c buffer wp dtv grv (List.replicate m Voice.init)
                (List.replicate m 0) gs).1 := rfl
        _ = 0 := by rw [ih gs]; norm_num [grainStep, Voice.init]

/-- C1 amended: a sample processed with the reset gate high resets the
event system — master ramp phase and slope zeroed, trigger detector
cleared, every voice slot returned to its inactive initial state — and
that sample's output is `lerp input 0 mix`: the grain sum is exactly
zero, with no residual envelope or grain contribution.  The write head,
delay buffer and filter states, however, are NOT cleared by the gate (see
the counterexample); only the uninvoked `GrainDelay::reset` member
(`GrainDelay.fullReset`) would clear them. -/
theorem claim1_amended (tf : TransFns) (c : GrainConsts) (ctl : BlockControls)
    (inp tr ov dt gr : ℚ) (s : GrainDelayState) :
    (GrainDelay.step tf c { ctl with reset := true } inp tr ov dt gr s).2.eventSystem
        = s.eventSystem.reset ∧
    (GrainDelay.step tf c { ctl with reset := true } inp tr ov dt gr
        s).2.eventSystem.phase = 0 ∧
    (GrainDelay.step tf c { ctl with reset := true } inp tr ov dt gr
        s).2.eventSystem.slope = 0 ∧
    (∀ v ∈ (GrainDelay.step tf c { ctl with reset := true } inp tr ov dt gr
        s).2.eventSystem.voices, v.active = false) ∧
    (GrainDelay.step tf c { ctl with reset := true } inp tr ov dt gr s).1
        = lerp inp 0 ctl.mix := by
  refine ⟨rfl, rfl, rfl, ?_, ?_⟩
  · intro v hv
    have h2 := List.eq_of_mem_replicate hv
    rw [h2]
    rfl
  · show lerp inp ((processGrains tf c s.buffer s.writePos
        (usedDelayTime c dt) (usedGrainRate gr)
        (List.replicate s.eventSystem.voices.length Voice.init)
        (List.replicate s.eventSystem.voices.length 0) s.grainData).1
          * (1 / tf.sqrtQ (stdMax 1 (usedOverlap c ov)))) ctl.mix
      = lerp inp 0 ctl.mix
    rw [processGrains_replicate_init, zero_mul]

-- ===== CLAIM C6 =====

/-- Transcendental instantiation for the C6 freeze instance: the only
cosine evaluation is at `(1/2) * TWO_PI`, within 4e-21 of π, where the
real cosine is -1 to double precision (any value other than 1 would
equally yield a nonzero window); the only square-root evaluation is at 1,
where the real square root is 1. -/
def hannFns : TransFns := ⟨fun _ => -1, fun _ => 0, fun _ => 1⟩

/-- A frozen one-voice state with an in-flight grain about to read the
spike stored at buffer index 2. -/
def freezeState : GrainDelayState :=
  { eventSystem := ⟨⟨1 / 4, false⟩, 1 / 2, 1 / 4, false, [⟨1 / 4, 1 / 4, 0, true, false⟩]⟩
    buffer := [0, 0, 1, 0]
    writePos := 0
    grainData := [⟨1 / 2, 1, true, -(1 / 2)⟩]
    dampingState := 0
    dcBlockState := 0 }

/-- C6: with the freeze gate high, a processed sample leaves every element
of the delay buffer and the write head unchanged — for every state, every
input and every parameter value (hence bit-for-bit identical buffers
across any frozen run); and in a concrete frozen state with an
already-active voice, the grain keeps reading the old buffer contents and
produces the nonzero output 9/16, the voice staying active, with the
buffer again untouched. -/
theorem claim6_freeze :
    (∀ (tf : TransFns) (c : GrainConsts) (ctl : BlockControls)
       (inp tr ov dt gr : ℚ) (s : GrainDelayState),
       (GrainDelay.step tf c { ctl with freeze := true } inp tr ov dt gr s).2.buffer
           = s.buffer ∧
       (GrainDelay.step tf c { ctl with freeze := true } inp tr ov dt gr s).2.writePos
           = s.writePos) ∧
    ((GrainDelay.step hannFns demoConsts (blockControls 1 0 0 1 0) 0 1 1 (1 / 2) 1
        freezeState).1 = 9 / 16 ∧
     (GrainDelay.step hannFns demoConsts (blockControls 1 0 0 1 0) 0 1 1 (1 / 2) 1
        freezeState).2.buffer = freezeState.buffer ∧
     countActive (GrainDelay.step hannFns demoConsts (blockControls 1 0 0 1 0) 0 1 1
        (1 / 2) 1 freezeState).2.eventSystem.voices = 1) := by
  constructor
  · intro tf c ctl inp tr ov dt gr s
    exact ⟨rfl, rfl⟩
  · with_unfolding_all decide

-- ===== CLAIMS C5 AND C7 =====

theorem clearTrigger_slope (v : Voice) : (clearTrigger v).slope = v.slope := rfl

theorem clearTrigger_phase (v : Voice) : (clearTrigger v).phase = v.phase := rfl

theorem map_step_getD (X : List Voice) (i : ℕ) (hX : i < X.length) :
    ((X.map voiceStep).map Prod.snd).getD i Voice.init
      = (voiceStep (X.getD i Voice.init)).2 := by
  rw [getD_map Prod.snd (0, Voice.init) Voice.init (X.map voiceStep) i (by simpa using hX),
      getD_map voiceStep Voice.init (0, Voice.init) X i hX]

theorem process_getD_active (s : EventSystem) (rate ov sr : ℚ) (i : ℕ)
    (h : (s.voices.getD i Voice.init).active = true) :
    (s.process rate false ov sr).2.voices.getD i Voice.init
      = (voiceStep (clearTrigger (s.voices.getD i Voice.init))).2 := by
  have hi : i < s.voices.length := by
    by_contra hc
    rw [getD_big_default s.voices i (le_of_not_lt hc)] at h
    simp [Voice.init] at h
  have h1 : (s.voices.map clearTrigger).getD i Voice.init
      = clearTrigger (s.voices.getD i Voice.init) :=
    getD_map clearTrigger Voice.init Voice.init s.voices i hi
  have hact1 : ((s.voices.map clearTrigger).getD i Voice.init).active = true := by
    rw [h1, clearTrigger_active]
    exact h
  simp only [EventSystem.process, Bool.false_eq_true, if_false]
  split
  · rw [map_step_getD _ i (by rw [allocate_length]; simpa using hi),
        allocate_getD_of_active _ _ _ _ i hact1, h1]
  · rw [map_step_getD _ i (by simpa using hi), h1]

/-- C7: the master ramp slope is unchanged by a non-reset sample whenever
no deferred wrap is being applied and the slope is already seeded
(nonzero) — it is re-latched only at wrap boundaries or at the first
seeding; and the envelope slope a voice latched at allocation is unchanged
by any non-reset sample for as long as the voice is active. -/
theorem claim7_slope_latch :
    (∀ (s : EventSystem) (rate ov sr : ℚ), s.wrapNext = false → s.slope ≠ 0 →
       (s.process rate false ov sr).2.slope = s.slope) ∧
    (∀ (s : EventSystem) (rate ov sr : ℚ) (i : ℕ),
       (s.voices.getD i Voice.init).active = true →
       ((s.process rate false ov sr).2.voices.getD i Voice.init).slope
         = (s.voices.getD i Voice.init).slope) := by
  constructor
  · intro s rate ov sr h1 h2
    simp [EventSystem.process, EventSystem.effSlope, h1, h2]
  · intro s rate ov sr i h
    rw [process_getD_active s rate ov sr i h, voiceStep_slope, clearTrigger_slope]

/-- C7 witness: a mid-cycle system (no pending wrap, slope 1/4) keeps its
slope across a processed sample. -/
theorem claim7_witness :
    ((EventSystem.mk ⟨0, false⟩ (1 / 2) (1 / 4) false [Voice.init]).process
        1 false 1 4).2.slope
      = (EventSystem.mk ⟨0, false⟩ (1 / 2) (1 / 4) false [Voice.init]).slope :=
  claim7_slope_latch.1 (EventSystem.mk ⟨0, false⟩ (1 / 2) (1 / 4) false [Voice.init])
    1 1 4 rfl (by with_unfolding_all decide)

/-- C5: a trigger that finds a free slot writes exactly
`envelopeSlope = slope / overlap`, `triggerOffset = phase / slope`,
`envelopePhase = envelopeSlope * triggerOffset` (algebraically
`phase / overlap` when `slope ≠ 0`) and marks the slot active and
just-triggered; the just-triggered voice's envelope phase is not
incremented on the allocation sample; and on any subsequent non-reset
sample an active voice's phase advances by exactly its envelope slope. -/
theorem claim5_allocation :
    (∀ (sl ov ph : ℚ) (l : List Voice) (v : Voice) (r : List Voice),
       (∀ u ∈ l, u.active = true) → v.active = false →
       allocate sl ov ph (l ++ v :: r) = l ++ triggeredVoice sl ov ph :: r) ∧
    (∀ sl ov ph : ℚ,
       (triggeredVoice sl ov ph).slope = sl / ov ∧
       (triggeredVoice sl ov ph).offset = ph / sl ∧
       (triggeredVoice sl ov ph).phase = sl / ov * (ph / sl) ∧
       (triggeredVoice sl ov ph).active = true ∧
       (triggeredVoice sl ov ph).justTriggered = true ∧
       (sl ≠ 0 → (triggeredVoice sl ov ph).phase = ph / ov)) ∧
    (∀ v : Voice, v.justTriggered = true → (voiceStep v).2.phase = v.phase) ∧
    (∀ (s : EventSystem) (rate ov sr : ℚ) (i : ℕ),
       (s.voices.getD i Voice.init).active = true →
       ((s.process rate false ov sr).2.voices.getD i Voice.init).phase
         = (s.voices.getD i Voice.init).phase + (s.voices.getD i Voice.init).slope) ∧
    (∀ (s : EventSystem) (rate ov sr : ℚ) (l : List Voice) (v : Voice) (r : List Voice),
       s.voices.map clearTrigger = l ++ v :: r →
       (∀ u ∈ l, u.active = true) → v.active = false →
       (s.trigDetect.process s.effPhase).1 = true →
       s.effSlope rate sr ≠ 0 →
       (s.process rate false ov sr).2.voices.getD l.length Voice.init
         = (voiceStep (triggeredVoice (s.effSlope rate sr) ov s.effPhase)).2) := by
  refine ⟨fun sl ov ph l v r hl hv => allocate_first_free sl ov ph l v r hl hv,
    fun sl ov ph => ⟨rfl, rfl, rfl, rfl, rfl, fun hsl => ?_⟩,
    fun v hj => voiceStep_phase_triggered v hj,
    fun s rate ov sr i h => ?_, fun s rate ov sr l v r hdec hl hv htr hsl => ?_⟩
  · show sl / ov * (ph / sl) = ph / ov
    rw [div_mul_div_comm, mul_comm sl ph, mul_div_mul_right _ _ hsl]
  · have hact : (clearTrigger (s.voices.getD i Voice.init)).active = true := by
      rw [clearTrigger_active]
      exact h
    rw [process_getD_active s rate ov sr i h,
        voiceStep_phase_advance (clearTrigger (s.voices.getD i Voice.init)) hact rfl,
        clearTrigger_phase, clearTrigger_slope]
  · simp only [EventSystem.process, Bool.false_eq_true, if_false]
    split
    · rw [hdec, allocate_first_free _ _ _ l v r hl hv,
          map_step_getD _ _ (by rw [List.length_append, List.length_cons]; omega),
          getD_append_self]
    · rename_i hcond
      exact absurd ⟨htr, hsl⟩ hcond

/-- C5 witness: a two-voice system whose first slot is busy receives a
trigger; the grain lands in slot 1 with the documented field values. -/
theorem claim5_witness :
    ((EventSystem.mk ⟨9 / 10, false⟩ (1 / 20) (1 / 10) false
        [⟨1 / 3, 1 / 10, 0, true, false⟩, Voice.init]).process 1 false 2 10).2.voices.getD
          1 Voice.init
      = (voiceStep (triggeredVoice
          ((EventSystem.mk ⟨9 / 10, false⟩ (1 / 20) (1 / 10) false
            [⟨1 / 3, 1 / 10, 0, true, false⟩, Voice.init]).effSlope 1 10) 2
          (EventSystem.mk ⟨9 / 10, false⟩ (1 / 20) (1 / 10) false
            [⟨1 / 3, 1 / 10, 0, true, false⟩, Voice.init]).effPhase)).2 :=
  claim5_allocation.2.2.2.2
    (EventSystem.mk ⟨9 / 10, false⟩ (1 / 20) (1 / 10) false
      [⟨1 / 3, 1 / 10, 0, true, false⟩, Voice.init])
    1 2 10 [⟨1 / 3, 1 / 10, 0, true, false⟩] Voice.init []
    (by with_unfolding_all decide) (by with_unfolding_all decide)
    (by with_unfolding_all decide) (by with_unfolding_all decide)
    (by with_unfolding_all decide)

-- ===== CLAIM C8 =====

/-- `EventSystem::process` at `resetTrigger = false`, written out as one
equation (definitional). -/
theorem process_false_eq (s : EventSystem) (rate ov sr : ℚ) :
    s.process rate false ov sr
      = (((if (s.trigDetect.process s.effPhase).1 = true ∧ s.effSlope rate sr ≠ 0 then
             allocate (s.effSlope rate sr) ov s.effPhase (s.voices.map clearTrigger)
           else s.voices.map clearTrigger).map voiceStep).map Prod.fst,
         { trigDetect := (s.trigDetect.process s.effPhase).2
           phase := s.effPhase + s.effSlope rate sr
           slope := s.effSlope rate sr
           wrapNext := decide (s.effPhase + s.effSlope rate sr ≥ 1)
           voices := ((if (s.trigDetect.process s.effPhase).1 = true ∧
                 s.effSlope rate sr ≠ 0 then
               allocate (s.effSlope rate sr) ov s.effPhase (s.voices.map clearTrigger)
             else s.voices.map clearTrigger).map voiceStep).map Prod.snd }) := rfl

theorem allocate_cons_inactive (sl ov ph : ℚ) (x : Voice) (rest : List Voice)
    (hx : x.active = false) :
    allocate sl ov ph (x :: rest) = triggeredVoice sl ov ph :: rest := by
  show (if x.active = true then x :: allocate sl ov ph rest
        else triggeredVoice sl ov ph :: rest) = _
  rw [hx]
  simp

theorem allocate_cons_active (sl ov ph : ℚ) (x : Voice) (rest : List Voice)
    (hx : x.active = true) :
    allocate sl ov ph (x :: rest) = x :: allocate sl ov ph rest := by
  show (if x.active = true then x :: allocate sl ov ph rest
        else triggeredVoice sl ov ph :: rest) = _
  rw [hx]
  simp

theorem stepAll_inactive (xs : List Voice) (h : ∀ u ∈ xs, u.active = false) :
    (xs.map voiceStep).map Prod.snd = xs := by
  induction xs with
  | nil => rfl
  | cons a t ih =>
    simp only [List.map_cons]
    rw [voiceStep_inactive a (h a (by simp)), ih (fun u hu => h u (by simp [hu]))]

theorem stepAll_append_mid (xs : List Voice) (m : Voice) (ys : List Voice)
    (hx : ∀ u ∈ xs, u.active = false) (hy : ∀ u ∈ ys, u.active = false) :
    (((xs ++ m :: ys).map voiceStep).map Prod.snd)
      = xs ++ (voiceStep m).2 :: ys := by
  rw [List.map_append, List.map_append, List.map_cons, List.map_cons,
      stepAll_inactive xs hx, stepAll_inactive ys hy]

theorem voiceStep_snd_active_false (u : Voice) (ha : u.active = true)
    (hj : u.justTriggered = false) (hp : u.phase + u.slope ≥ 1) :
    ((voiceStep u).2).active = false := by
  simp [voiceStep, ha, hj, hp]

theorem voiceStep_snd_active_live (u : Voice) (ha : u.active = true)
    (hj : u.justTriggered = false) (hp : u.phase + u.slope < 1) :
    ((voiceStep u).2).active = true := by
  simp [voiceStep, ha, hj, not_le.mpr hp]

theorem voiceStep_justTriggered_live (u : Voice) (ha : u.active = true)
    (hj : u.justTriggered = true) (hp : u.phase < 1) :
    voiceStep u = (u.phase, u) := by
  obtain ⟨p, s, o, a, j⟩ := u
  dsimp only at ha hj hp
  subst ha
  subst hj
  simp [voiceStep, not_le.mpr hp]

theorem wrapCond_midcycle (f sl : ℚ) (hf : 0 ≤ f) (hs : 0 < sl) :
    wrapCond (f + sl) f = decide (f < sl / 2) := by
  have hsumpos : 0 < f + sl + f := by linarith
  unfold wrapCond
  rw [← Bool.decide_and, decide_eq_decide]
  have e1 : (f + sl - f) / (f + sl + f) = sl / (f + sl + f) := by ring
  constructor
  · rintro ⟨-, hgt⟩
    rw [e1, gt_iff_lt, abs_of_pos (div_pos hs hsumpos), lt_div_iff₀ hsumpos] at hgt
    linarith
  · intro hlt
    refine ⟨ne_of_gt hsumpos, ?_⟩
    rw [e1, gt_iff_lt, abs_of_pos (div_pos hs hsumpos), lt_div_iff₀ hsumpos]
    linarith

theorem wrapCond_wrapstep (f sl : ℚ) (h1 : f + sl ≥ 1) (hf1 : f < 1) (_hs : 0 < sl)
    (h3 : sl ≤ 1 / 3) : wrapCond (f + sl - 1) f = true := by
  have hsumpos : 0 < f + sl - 1 + f := by linarith
  unfold wrapCond
  rw [← Bool.decide_and]
  apply decide_eq_true
  refine ⟨ne_of_gt hsumpos, ?_⟩
  have e1 : (f + sl - 1 - f) / (f + sl - 1 + f) = (sl - 1) / (f + sl - 1 + f) := by ring
  have hneg : (sl - 1) / (f + sl - 1 + f) < 0 :=
    div_neg_of_neg_of_pos (by linarith) hsumpos
  rw [e1, gt_iff_lt, abs_of_neg hneg, ← neg_div, lt_div_iff₀ hsumpos]
  linarith

/-- The steady-state invariant behind C8 (`overlap = 1`, constant rate,
slope `sl = rate / sampleRate`): exactly one voice is active; its envelope
phase coincides with the detector's stored phase, trails the master phase
by one slope step, and the deferred-wrap flag and stored wrap flag are
consistent with it. -/
def steadyInv (sl : ℚ) (es : EventSystem) : Prop :=
  ∃ l v r, es.voices = l ++ v :: r ∧
    (∀ u ∈ l, u.active = false) ∧ (∀ u ∈ r, u.active = false) ∧
    (l = [] → r ≠ []) ∧
    v.active = true ∧ v.slope = sl ∧
    0 ≤ v.phase ∧ v.phase < 1 ∧
    es.slope = sl ∧
    es.phase = v.phase + sl ∧
    es.wrapNext = decide (v.phase + sl ≥ 1) ∧
    es.trigDetect.lastPhase = v.phase ∧
    (v.phase < sl / 2 → es.trigDetect.lastWrap = true) ∧
    (v.phase + sl ≥ 1 → es.trigDetect.lastWrap = false)

theorem steadyInv_step (rate sampleRate sl : ℚ) (es : EventSystem)
    (hsl : rate / sampleRate = sl) (h0 : 0 < sl) (h3 : sl ≤ 1 / 3)
    (hinv : steadyInv sl es) :
    steadyInv sl (es.process rate false 1 sampleRate).2 := by
  obtain ⟨l, v, r, hvs, hlin, hrin, hlr, hact, hvslope, hph0, hph1, hes, hphase,
    hwrap, hlast, hlw1, hlw2⟩ := hinv
  have hslne : sl ≠ 0 := ne_of_gt h0
  have hcv_act : (clearTrigger v).active = true := by
    rw [clearTrigger_active]
    exact hact
  have hlcin : ∀ u ∈ l.map clearTrigger, u.active = false := by
    intro u hu
    rcases List.mem_map.mp hu with ⟨w, hw2, rfl⟩
    rw [clearTrigger_active]
    exact hlin w hw2
  have hrcin : ∀ u ∈ r.map clearTrigger, u.active = false := by
    intro u hu
    rcases List.mem_map.mp hu with ⟨w, hw2, rfl⟩
    rw [clearTrigger_active]
    exact hrin w hw2
  rw [process_false_eq]
  by_cases hw : v.phase + sl ≥ 1
  · -- wrap sample: a deferred wrap is applied, the trigger fires, the old
    -- voice dies this sample and the fresh grain lands in the first free slot
    have hwn : es.wrapNext = true := by rw [hwrap]; exact decide_eq_true hw
    have hslope1 : es.effSlope rate sampleRate = sl := by
      rw [EventSystem.effSlope, hwn, if_pos rfl, hsl]
    have hphase1 : es.effPhase = v.phase + sl - 1 := by
      rw [EventSystem.effPhase, hwn, if_pos rfl, hphase]
    have hcond : wrapCond es.effPhase es.trigDetect.lastPhase = true := by
      rw [hphase1, hlast]
      exact wrapCond_wrapstep v.phase sl hw hph1 h0 h3
    have htrig : (es.trigDetect.process es.effPhase).1 = true := by
      show (wrapCond es.effPhase es.trigDetect.lastPhase && !es.trigDetect.lastWrap) = true
      rw [hcond, hlw2 hw]
      rfl
    have hif : (es.trigDetect.process es.effPhase).1 = true ∧
        es.effSlope rate sampleRate ≠ 0 := ⟨htrig, by rw [hslope1]; exact hslne⟩
    rw [if_pos hif, hslope1, hphase1, hvs]
    rw [hphase1] at hcond
    simp only [List.map_append, List.map_cons, List.cons_append, List.map_nil,
      List.nil_append]
    have hp2nn : 0 ≤ v.phase + sl - 1 := by linarith
    have hp2lt1 : v.phase + sl - 1 < 1 := by linarith
    have htv_phase : (triggeredVoice sl 1 (v.phase + sl - 1)).phase = v.phase + sl - 1 := by
      show sl / 1 * ((v.phase + sl - 1) / sl) = v.phase + sl - 1
      rw [div_one, mul_comm, div_mul_cancel₀ _ hslne]
    have htv_step : voiceStep (triggeredVoice sl 1 (v.phase + sl - 1))
        = (v.phase + sl - 1, triggeredVoice sl 1 (v.phase + sl - 1)) := by
      rw [voiceStep_justTriggered_live _ rfl rfl (by rw [htv_phase]; exact hp2lt1),
          htv_phase]
    have hcv_dead : ((voiceStep (clearTrigger v)).2).active = false := by
      apply voiceStep_snd_active_false _ hcv_act rfl
      show (clearTrigger v).phase + (clearTrigger v).slope ≥ 1
      rw [clearTrigger_phase, clearTrigger_slope, hvslope]
      exact hw
    cases l with
    | nil =>
      cases r with
      | nil => exact absurd rfl (hlr rfl)
      | cons d r2 =>
        have hdin : (clearTrigger d).active = false := by
          rw [clearTrigger_active]
          exact hrin d (by simp)
        simp only [List.map_nil, List.nil_append, List.map_cons]
        rw [allocate_cons_active _ _ _ _ _ hcv_act,
            allocate_cons_inactive _ _ _ _ _ hdin]
        simp only [List.map_cons]
        rw [htv_step]
        rw [stepAll_inactive (r2.map clearTrigger) (fun u hu => hrcin u (by simp [hu]))]
        refine ⟨[(voiceStep (clearTrigger v)).2], triggeredVoice sl 1 (v.phase + sl - 1),
          r2.map clearTrigger, rfl, ?_, fun u hu => hrcin u (by simp [hu]),
          fun hc => absurd hc (by simp), rfl, ?_, ?_, ?_, rfl, ?_, ?_, ?_, ?_, ?_⟩
        · intro u hu
          rw [List.mem_singleton] at hu
          rw [hu]
          exact hcv_dead
        · show sl / 1 = sl
          rw [div_one]
        · rw [htv_phase]
          exact hp2nn
        · rw [htv_phase]
          exact hp2lt1
        · show v.phase + sl - 1 + sl = (triggeredVoice sl 1 (v.phase + sl - 1)).phase + sl
          rw [htv_phase]
        · show decide (v.phase + sl - 1 + sl ≥ 1)
            = decide ((triggeredVoice sl 1 (v.phase + sl - 1)).phase + sl ≥ 1)
          rw [htv_phase]
        · show v.phase + sl - 1 = (triggeredVoice sl 1 (v.phase + sl - 1)).phase
          rw [htv_phase]
        · intro _
          show wrapCond (v.phase + sl - 1) es.trigDetect.lastPhase = true
          exact hcond
        · intro hcontra
          rw [htv_phase] at hcontra
          exfalso
          linarith
    | cons d l2 =>
      have hdin : (clearTrigger d).active = false := by
        rw [clearTrigger_active]
        exact hlin d (by simp)
      simp only [List.map_cons, List.cons_append]
      rw [allocate_cons_inactive _ _ _ _ _ hdin]
      simp only [List.map_cons, List.map_append]
      rw [htv_step]
      rw [stepAll_inactive (l2.map clearTrigger) (fun u hu => hlcin u (by simp [hu])),
          stepAll_inactive (r.map clearTrigger) hrcin]
      refine ⟨[], triggeredVoice sl 1 (v.phase + sl - 1),
        l2.map clearTrigger ++ (voiceStep (clearTrigger v)).2 :: r.map clearTrigger,
        rfl, by simp, ?_, fun _ => by simp, rfl, ?_, ?_, ?_, rfl, ?_, ?_, ?_, ?_, ?_⟩
      · intro u hu
        rcases List.mem_append.mp hu with hu2 | hu2
        · exact hlcin u (by simp [hu2])
        · rcases List.mem_cons.mp hu2 with hu3 | hu3
          · rw [hu3]
            exact hcv_dead
          · exact hrcin u hu3
      · show sl / 1 = sl
        rw [div_one]
      · rw [htv_phase]
        exact hp2nn
      · rw [htv_phase]
        exact hp2lt1
      · show v.phase + sl - 1 + sl = (triggeredVoice sl 1 (v.phase + sl - 1)).phase + sl
        rw [htv_phase]
      · show decide (v.phase + sl - 1 + sl ≥ 1)
          = decide ((triggeredVoice sl 1 (v.phase + sl - 1)).phase + sl ≥ 1)
        rw [htv_phase]
      · show v.phase + sl - 1 = (triggeredVoice sl 1 (v.phase + sl - 1)).phase
        rw [htv_phase]
      · intro _
        show wrapCond (v.phase + sl - 1) es.trigDetect.lastPhase = true
        exact hcond
      · intro hcontra
        rw [htv_phase] at hcontra
        exfalso
        linarith
  · -- mid-cycle sample: no wrap pending, no trigger fires, the single
    -- active voice advances by one slope step
    have hwlt : v.phase + sl < 1 := not_le.mp hw
    have hwn : es.wrapNext = false := by rw [hwrap]; exact decide_eq_false hw
    have hslope1 : es.effSlope rate sampleRate = sl := by
      rw [EventSystem.effSlope, hwn, if_neg (by simp), hes, if_neg hslne]
    have hphase1 : es.effPhase = v.phase + sl := by
      rw [EventSystem.effPhase, hwn, if_neg (by simp), hphase]
    have hcondmid : wrapCond es.effPhase es.trigDetect.lastPhase
        = decide (v.phase < sl / 2) := by
      rw [hphase1, hlast]
      exact wrapCond_midcycle v.phase sl hph0 h0
    have htrig : (es.trigDetect.process es.effPhase).1 = false := by
      show (wrapCond es.effPhase es.trigDetect.lastPhase && !es.trigDetect.lastWrap) = false
      rw [hcondmid]
      by_cases hhalf : v.phase < sl / 2
      · rw [hlw1 hhalf]
        simp
      · rw [decide_eq_false hhalf]
        simp
    rw [if_neg (by rw [htrig]; simp), hslope1, hphase1, hvs]
    rw [hphase1] at hcondmid
    simp only [List.map_append, List.map_cons, List.cons_append, List.map_nil,
      List.nil_append]
    rw [stepAll_inactive (l.map clearTrigger) hlcin,
        stepAll_inactive (r.map clearTrigger) hrcin]
    have hcv_sum : (clearTrigger v).phase + (clearTrigger v).slope = v.phase + sl := by
      rw [clearTrigger_phase, clearTrigger_slope, hvslope]
    have hcv_live : ((voiceStep (clearTrigger v)).2).active = true := by
      apply voiceStep_snd_active_live _ hcv_act rfl
      rw [hcv_sum]
      exact hwlt
    have hcv_phase : ((voiceStep (clearTrigger v)).2).phase = v.phase + sl := by
      rw [voiceStep_phase_advance _ hcv_act rfl, hcv_sum]
    have hcv_slope : ((voiceStep (clearTrigger v)).2).slope = sl := by
      rw [voiceStep_slope, clearTrigger_slope, hvslope]
    refine ⟨l.map clearTrigger, (voiceStep (clearTrigger v)).2, r.map clearTrigger,
      rfl, hlcin, hrcin, ?_, hcv_live, hcv_slope, ?_, ?_, rfl, ?_, ?_, ?_, ?_, ?_⟩
    · intro hle
      rw [List.map_eq_nil_iff] at hle
      intro hre
      rw [List.map_eq_nil_iff] at hre
      exact hlr hle hre
    · rw [hcv_phase]
      linarith
    · rw [hcv_phase]
      exact hwlt
    · show v.phase + sl + sl = ((voiceStep (clearTrigger v)).2).phase + sl
      rw [hcv_phase]
    · show decide (v.phase + sl + sl ≥ 1)
        = decide (((voiceStep (clearTrigger v)).2).phase + sl ≥ 1)
      rw [hcv_phase]
    · show v.phase + sl = ((voiceStep (clearTrigger v)).2).phase
      rw [hcv_phase]
    · intro hcontra
      rw [hcv_phase] at hcontra
      exfalso
      linarith
    · intro hge
      rw [hcv_phase] at hge
      show wrapCond (v.phase + sl) es.trigDetect.lastPhase = false
      rw [hcondmid]
      apply decide_eq_false
      intro hhalf
      linarith

theorem wrapCond_zero : wrapCond 0 0 = false := by
  with_unfolding_all decide

theorem wrapCond_self (x : ℚ) (hx : x ≠ 0) : wrapCond x 0 = true := by
  unfold wrapCond
  rw [← Bool.decide_and]
  apply decide_eq_true
  refine ⟨by rw [add_zero]; exact hx, ?_⟩
  rw [sub_zero, add_zero, div_self hx, gt_iff_lt, abs_one]
  norm_num

theorem steadyInv_start (rate sampleRate : ℚ) (N : ℕ)
    (h0 : 0 < rate / sampleRate) (h3 : rate / sampleRate ≤ 1 / 3) (hN : 2 ≤ N) :
    steadyInv (rate / sampleRate) ((EventSystem.init N).iterate rate 1 sampleRate 2) := by
  obtain ⟨M, rfl⟩ : ∃ M, N = M + 2 := ⟨N - 2, by omega⟩
  have hslne : rate / sampleRate ≠ 0 := ne_of_gt h0
  have hmapct : (List.replicate (M + 2) Voice.init).map clearTrigger
      = List.replicate (M + 2) Voice.init := by
    rw [List.map_replicate]
    rfl
  have hstepall : ∀ k : ℕ,
      ((List.replicate k Voice.init).map voiceStep).map Prod.snd
        = List.replicate k Voice.init := by
    intro k
    apply stepAll_inactive
    intro u hu
    rw [List.eq_of_mem_replicate hu]
    rfl
  have h1 : (EventSystem.init (M + 2)).iterate rate 1 sampleRate 1
      = ⟨⟨0, wrapCond 0 0⟩, 0 + rate / sampleRate, rate / sampleRate,
         decide ((0 : ℚ) + rate / sampleRate ≥ 1), List.replicate (M + 2) Voice.init⟩ := by
    show ((EventSystem.init (M + 2)).process rate false 1 sampleRate).2 = _
    rw [process_false_eq]
    have htr : ((EventSystem.init (M + 2)).trigDetect.process
        (EventSystem.init (M + 2)).effPhase).1 = false := by
      show (wrapCond 0 0 && !false) = false
      rw [wrapCond_zero]
      rfl
    rw [if_neg (by rw [htr]; simp)]
    simp only [EventSystem.init]
    rw [hmapct, hstepall (M + 2)]
    with_unfolding_all rfl
  have h2 : (EventSystem.init (M + 2)).iterate rate 1 sampleRate 2
      = ((EventSystem.mk ⟨0, wrapCond 0 0⟩ (0 + rate / sampleRate) (rate / sampleRate)
          (decide ((0 : ℚ) + rate / sampleRate ≥ 1))
          (List.replicate (M + 2) Voice.init)).process rate false 1 sampleRate).2 := by
    show (((EventSystem.init (M + 2)).iterate rate 1 sampleRate 1).process
        rate false 1 sampleRate).2 = _
    rw [h1]
  have hnge : ¬ ((0 : ℚ) + rate / sampleRate ≥ 1) := by
    rw [zero_add]
    intro hc
    linarith
  have hwn2 : decide ((0 : ℚ) + rate / sampleRate ≥ 1) = false := decide_eq_false hnge
  have heffS : (EventSystem.mk ⟨0, wrapCond 0 0⟩ (0 + rate / sampleRate)
      (rate / sampleRate) (decide ((0 : ℚ) + rate / sampleRate ≥ 1))
      (List.replicate (M + 2) Voice.init)).effSlope rate sampleRate
        = rate / sampleRate := by
    rw [EventSystem.effSlope]
    dsimp only
    rw [hwn2, if_neg (by simp), if_neg hslne]
  have heffP : (EventSystem.mk ⟨0, wrapCond 0 0⟩ (0 + rate / sampleRate)
      (rate / sampleRate) (decide ((0 : ℚ) + rate / sampleRate ≥ 1))
      (List.replicate (M + 2) Voice.init)).effPhase = 0 + rate / sampleRate := by
    rw [EventSystem.effPhase]
    dsimp only
    rw [hwn2, if_neg (by simp)]
  have htr2 : ((EventSystem.mk ⟨0, wrapCond 0 0⟩ (0 + rate / sampleRate)
      (rate / sampleRate) (decide ((0 : ℚ) + rate / sampleRate ≥ 1))
      (List.replicate (M + 2) Voice.init)).trigDetect.process
        (EventSystem.mk ⟨0, wrapCond 0 0⟩ (0 + rate / sampleRate)
          (rate / sampleRate) (decide ((0 : ℚ) + rate / sampleRate ≥ 1))
          (List.replicate (M + 2) Voice.init)).effPhase).1 = true := by
    show (wrapCond ((EventSystem.mk ⟨0, wrapCond 0 0⟩ (0 + rate / sampleRate)
        (rate / sampleRate) (decide ((0 : ℚ) + rate / sampleRate ≥ 1))
        (List.replicate (M + 2) Voice.init)).effPhase) 0 && !(wrapCond 0 0)) = true
    rw [heffP, wrapCond_zero, zero_add, wrapCond_self _ hslne]
    rfl
  rw [h2, process_false_eq,
      if_pos ⟨htr2, by rw [heffS]; exact hslne⟩, heffS, heffP, hmapct]
  simp only [zero_add]
  have hrep : List.replicate (M + 2) Voice.init
      = Voice.init :: Voice.init :: List.replicate M Voice.init := rfl
  rw [hrep, allocate_cons_inactive _ _ _ _ _ rfl]
  simp only [List.map_cons]
  rw [hstepall M]
  have htv2_phase : (triggeredVoice (rate / sampleRate) 1 (rate / sampleRate)).phase
      = rate / sampleRate := by
    show rate / sampleRate / 1 * (rate / sampleRate / (rate / sampleRate))
      = rate / sampleRate
    rw [div_one, div_self hslne, mul_one]
  have htv2_step : voiceStep (triggeredVoice (rate / sampleRate) 1 (rate / sampleRate))
      = ((triggeredVoice (rate / sampleRate) 1 (rate / sampleRate)).phase,
         triggeredVoice (rate / sampleRate) 1 (rate / sampleRate)) :=
    voiceStep_justTriggered_live _ rfl rfl (by rw [htv2_phase]; linarith)
  rw [htv2_step]
  refine ⟨[], triggeredVoice (rate / sampleRate) 1 (rate / sampleRate),
    Voice.init :: List.replicate M Voice.init, rfl, by simp, ?_, fun _ => by simp,
    rfl, ?_, ?_, ?_, rfl, ?_, ?_, ?_, ?_, ?_⟩
  · intro u hu
    rcases List.mem_cons.mp hu with h | h
    · rw [h]
      rfl
    · rw [List.eq_of_mem_replicate h]
      rfl
  · show rate / sampleRate / 1 = rate / sampleRate
    rw [div_one]
  · rw [htv2_phase]
    linarith
  · rw [htv2_phase]
    linarith
  · show rate / sampleRate + rate / sampleRate
      = (triggeredVoice (rate / sampleRate) 1 (rate / sampleRate)).phase
        + rate / sampleRate
    rw [htv2_phase]
  · show decide (rate / sampleRate + rate / sampleRate ≥ 1)
      = decide ((triggeredVoice (rate / sampleRate) 1 (rate / sampleRate)).phase
        + rate / sampleRate ≥ 1)
    rw [htv2_phase]
  · show rate / sampleRate
      = (triggeredVoice (rate / sampleRate) 1 (rate / sampleRate)).phase
    rw [htv2_phase]
  · intro _
    show wrapCond (rate / sampleRate) 0 = true
    exact wrapCond_self _ hslne
  · intro hcontra
    rw [htv2_phase] at hcontra
    exfalso
    linarith

theorem countActive_single (l : List Voice) (v : Voice) (r : List Voice)
    (hl : ∀ u ∈ l, u.active = false) (hr : ∀ u ∈ r, u.active = false)
    (hv : v.active = true) : countActive (l ++ v :: r) = 1 := by
  unfold countActive
  have hfl : List.filter (fun u => u.active) l = [] := by
    rw [List.filter_eq_nil_iff]
    intro u hu
    simp [hl u hu]
  have hfr : List.filter (fun u => u.active) r = [] := by
    rw [List.filter_eq_nil_iff]
    intro u hu
    simp [hr u hu]
  rw [List.filter_append, List.filter_cons, hfl, hfr]
  simp [hv]

/-- C8: with overlap 1 and a constant, consistent trigger rate (positive,
and at most a third of the sample rate, so that consecutive ramp wraps are
at least three samples apart), every processed sample from the first
trigger on (sample index 2 after construction) ends with exactly one
active voice: the old grain completes on exactly the wrap sample that
allocates the new one, so a new grain is never triggered strictly before
the previous grain's envelope has completed. -/
theorem claim8_single_voice (rate sampleRate : ℚ) (N n : ℕ)
    (h0 : 0 < rate / sampleRate) (h3 : rate / sampleRate ≤ 1 / 3)
    (hN : 2 ≤ N) (hn : 2 ≤ n) :
    countActive ((EventSystem.init N).iterate rate 1 sampleRate n).voices = 1 := by
  obtain ⟨m, rfl⟩ : ∃ m, n = 2 + m := ⟨n - 2, by omega⟩
  have key : ∀ k, steadyInv (rate / sampleRate)
      ((EventSystem.init N).iterate rate 1 sampleRate (2 + k)) := by
    intro k
    induction k with
    | zero => exact steadyInv_start rate sampleRate N h0 h3 hN
    | succ j ih =>
      have he : 2 + (j + 1) = (2 + j) + 1 := by omega
      rw [he]
      exact steadyInv_step rate sampleRate (rate / sampleRate) _ rfl h0 h3 ih
  obtain ⟨l, v, r, hvs, hl2, hr2, -, hv2, -, -, -, -, -, -, -, -, -⟩ := key m
  rw [hvs]
  exact countActive_single l v r hl2 hr2 hv2

/-- C8 witness: 32 voices, trigger rate 1 at sample rate 4 (slope 1/4),
overlap 1; after 9 samples exactly one voice is active. -/
theorem claim8_witness :
    countActive ((EventSystem.init 32).iterate 1 1 4 9).voices = 1 :=
  claim8_single_voice 1 4 32 9 (by with_unfolding_all decide)
    (by with_unfolding_all decide) (by decide) (by decide)

end GrainDelayModel
